import Mathlib

/-!
Verification of the trend-analysis repository (sentiment.py, trend_analyzer.py,
config.py) against its specification.

Shallow embedding conventions:
* Python strings that are inspected character-by-character are `List Char`
  (abbreviated `PyStr`); identifier-like strings that are only compared for
  equality (source names, platform tags, labels, keywords) are Lean `String`.
* Floating-point scores are modelled as exact rationals `ℚ`; Python `round`
  is modelled as round-half-to-even on the exact rational value.
* The external TextBlob sentiment model is an opaque pair of functions
  (polarity, subjectivity); the network fetches of the two collector paths
  are opaque functions in an `AnalyzerEnv` record.
* Fallible Python code (`int()` raising ValueError, an analysis raising)
  is modelled with `Option`.
-/

/-! ### Python string primitives -/

/-- Python strings, modelled as lists of characters. -/
abbrev PyStr := List Char

/-- ASCII whitespace as recognised by Python str.split / str.strip. -/
def pyIsSpace (c : Char) : Bool :=
  c = ' ' || c = '\t' || c = '\n' || c = '\r' || c = '\x0b' || c = '\x0c'

/-- Python `not text or not text.strip()`: the string is empty or all whitespace. -/
def pyIsBlank (s : PyStr) : Bool := s.all pyIsSpace

/-- Python `text.strip()`: drop leading and trailing whitespace. -/
def pyStrip (s : PyStr) : PyStr :=
  ((s.dropWhile pyIsSpace).reverse.dropWhile pyIsSpace).reverse

/-- Python `text.split()`: split on runs of whitespace, discarding empty parts. -/
def pyWords (s : PyStr) : List PyStr :=
  (s.foldr (fun c acc =>
    if pyIsSpace c then [] :: acc
    else match acc with
      | [] => [[c]]
      | w :: ws => (c :: w) :: ws) []).filter (fun w => !w.isEmpty)

/-- Python `' '.join(parts)`. -/
def pyJoinSpace (ws : List PyStr) : PyStr := List.intercalate [' '] ws

/-! ### sentiment.py : SentimentAnalyzer.clean_text (lines 28-43) -/

/-- The character class of the URL regex in clean_text (line 34):
letters, digits, the ASCII range from dollar to underscore, and the
characters bang, star, backslash, parens and comma.  The mention/percent
alternatives of the regex are subsumed by the dollar-to-underscore range. -/
def isUrlChar (c : Char) : Bool :=
  c.isAlpha || c.isDigit || ('$' ≤ c && c ≤ '_') ||
    c = '!' || c = '*' || c = '\\' || c = '(' || c = ')' || c = ','

/-- Match the URL regex at the head of the input: literal http, optional s,
literal ://, then one or more `isUrlChar` characters (greedy).  Returns the
rest of the input after the match. -/
def matchUrl : PyStr → Option PyStr
  | 'h' :: 't' :: 't' :: 'p' :: rest =>
    let after : Option PyStr :=
      match rest with
      | 's' :: ':' :: '/' :: '/' :: r => some r
      | ':' :: '/' :: '/' :: r => some r
      | _ => none
    match after with
    | some r =>
      let body := r.takeWhile isUrlChar
      if body.isEmpty then none else some (r.drop body.length)
    | none => none
  | _ => none

/-- Leftmost non-overlapping removal of URL matches (re.sub with empty
replacement), fuel-indexed; fuel equal to the input length suffices since
every step consumes at least one character. -/
def removeUrlsAux : Nat → PyStr → PyStr
  | 0, s => s
  | _ + 1, [] => []
  | fuel + 1, c :: rest =>
    match matchUrl (c :: rest) with
    | some r => removeUrlsAux fuel r
    | none => c :: removeUrlsAux fuel rest

/-- re.sub of the URL pattern with the empty string (clean_text line 34). -/
def removeUrls (s : PyStr) : PyStr := removeUrlsAux s.length s

/-- The regex word class backslash-w, ASCII model: letters, digits, underscore. -/
def isWordChar (c : Char) : Bool := c.isAlpha || c.isDigit || c = '_'

/-- Remove every occurrence of marker-followed-by-one-or-more-word-characters
(the mention and hashtag patterns of clean_text lines 37-38), fuel-indexed. -/
def removeTaggedAux (marker : Char) : Nat → PyStr → PyStr
  | 0, s => s
  | _ + 1, [] => []
  | fuel + 1, c :: rest =>
    if c == marker && !(rest.takeWhile isWordChar).isEmpty then
      removeTaggedAux marker fuel (rest.drop (rest.takeWhile isWordChar).length)
    else
      c :: removeTaggedAux marker fuel rest

/-- re.sub of the mention pattern at-sign-word (clean_text line 37). -/
def removeMentions (s : PyStr) : PyStr := removeTaggedAux '@' s.length s

/-- re.sub of the hashtag pattern hash-word (clean_text line 38). -/
def removeHashtags (s : PyStr) : PyStr := removeTaggedAux '#' s.length s

/-- SentimentAnalyzer.clean_text (sentiment.py lines 28-43): empty guard,
remove URLs, mentions and hashtags, collapse whitespace, strip. -/
def clean_text (text : PyStr) : PyStr :=
  if text.isEmpty then []
  else pyStrip (pyJoinSpace (pyWords (removeHashtags (removeMentions (removeUrls text)))))

/-! ### sentiment.py : SentimentAnalyzer.analyze_text and aggregation -/

/-- The external TextBlob model: polarity in [-1,1] and subjectivity in [0,1]
per cleaned text.  Opaque to this development; theorems that depend on the
library's behaviour take it as an explicit hypothesis. -/
structure SentimentModel where
  polarity : PyStr → ℚ
  subjectivity : PyStr → ℚ

/-- sentiment.py SentimentResult dataclass (lines 6-12). -/
structure SentimentResult where
  text : PyStr
  score : ℚ
  confidence : ℚ
  label : String
deriving DecidableEq

/-- Analyzer field positive_threshold = 0.1 (sentiment.py line 19). -/
def positive_threshold : ℚ := 1 / 10

/-- Analyzer field negative_threshold = -0.1 (sentiment.py line 20). -/
def negative_threshold : ℚ := -(1 / 10)

/-- The classification if-chain, written once here because it appears
verbatim twice in the source: analyze_text lines 68-73 and
get_overall_sentiment lines 113-118. -/
def classify (score : ℚ) : String :=
  if score > positive_threshold then "positive"
  else if score < negative_threshold then "negative"
  else "neutral"

/-- SentimentAnalyzer.analyze_text (sentiment.py lines 45-80).  The blank
guard returns without consulting the model; otherwise the cleaned text is
scored by the model and classified. -/
def analyze_text (m : SentimentModel) (text : PyStr) : SentimentResult :=
  if pyIsBlank text then ⟨text, 0, 0, "neutral"⟩
  else
    let cleaned := clean_text text
    let pol := m.polarity cleaned
    let subj := m.subjectivity cleaned
    ⟨text, pol, subj, classify pol⟩

/-- SentimentAnalyzer.analyze_batch (sentiment.py lines 82-84). -/
def analyze_batch (m : SentimentModel) (texts : List PyStr) : List SentimentResult :=
  texts.map (analyze_text m)

/-- Round half to even (Python banker's rounding) on an exact rational. -/
def roundHalfEven (x : ℚ) : ℤ :=
  let n := ⌊x⌋
  let f := x - n
  if f < 1 / 2 then n else if 1 / 2 < f then n + 1
  else if n % 2 = 0 then n else n + 1

/-- Python round(x, ndigits) on the exact rational value. -/
def pyRound (x : ℚ) (ndigits : Nat) : ℚ :=
  (roundHalfEven (x * 10 ^ ndigits) : ℚ) / 10 ^ ndigits

/-- The dict returned by get_overall_sentiment.  The empty-input branch of
the source (lines 88-97) omits the sentiment_distribution key, hence the
`Option`: `none` records that no percentage division was performed. -/
structure SentimentSummary where
  overall_score : ℚ
  overall_label : String
  positive_count : Nat
  negative_count : Nat
  neutral_count : Nat
  total_count : Nat
  confidence : ℚ
  sentiment_distribution : Option (ℚ × ℚ × ℚ)
deriving DecidableEq

/-- SentimentAnalyzer.get_overall_sentiment (sentiment.py lines 86-133). -/
def get_overall_sentiment (m : SentimentModel) (texts : List PyStr) : SentimentSummary :=
  if texts.isEmpty then ⟨0, "neutral", 0, 0, 0, 0, 0, none⟩
  else
    let results := analyze_batch m texts
    let positive_count := results.countP (fun r => r.label == "positive")
    let negative_count := results.countP (fun r => r.label == "negative")
    let neutral_count := results.countP (fun r => r.label == "neutral")
    let avg_score := (results.map SentimentResult.score).sum / (results.length : ℚ)
    let avg_confidence := (results.map SentimentResult.confidence).sum / (results.length : ℚ)
    ⟨pyRound avg_score 3, classify avg_score,
     positive_count, negative_count, neutral_count, results.length,
     pyRound avg_confidence 3,
     some (pyRound ((positive_count : ℚ) / (results.length : ℚ) * 100) 1,
           pyRound ((negative_count : ℚ) / (results.length : ℚ) * 100) 1,
           pyRound ((neutral_count : ℚ) / (results.length : ℚ) * 100) 1)⟩

/-! ### config.py : Config.get_timeframe_hours (lines 57-70) -/

/-- The default value of the DEFAULT_TIMEFRAME configuration entry. -/
def DEFAULT_TIMEFRAME : PyStr := ['2', '4', 'h']

/-- Decimal value of a digit string. -/
def digitsVal (ds : List Char) : Nat :=
  ds.foldl (fun a c => a * 10 + (c.toNat - 48)) 0

/-- Python int() on a string: strip whitespace, optional sign, then decimal
digits; `none` models the ValueError raised on any other shape.  (Underscore
digit grouping is not modelled.) -/
def pyInt (s : PyStr) : Option Int :=
  match pyStrip s with
  | [] => none
  | c :: ds =>
    if c = '+' then
      if !ds.isEmpty && ds.all Char.isDigit then some (digitsVal ds : Int) else none
    else if c = '-' then
      if !ds.isEmpty && ds.all Char.isDigit then some (-(digitsVal ds : Int)) else none
    else if (c :: ds).all Char.isDigit then some (digitsVal (c :: ds) : Int) else none

/-- Config.get_timeframe_hours (config.py lines 57-70).  A `none` argument or
an empty string falls back to DEFAULT_TIMEFRAME (Python `timeframe or
cls.DEFAULT_TIMEFRAME`); endswith on a one-character suffix is a test on the
last character; a `none` result models the ValueError that int() raises on a
non-numeric prefix. -/
def get_timeframe_hours (timeframe : Option PyStr) : Option Int :=
  let tf := match timeframe with
    | none => DEFAULT_TIMEFRAME
    | some s => if s.isEmpty then DEFAULT_TIMEFRAME else s
  if tf.getLast? = some 'h' then pyInt tf.dropLast
  else if tf.getLast? = some 'd' then (pyInt tf.dropLast).map (fun n => n * 24)
  else if tf.getLast? = some 'w' then (pyInt tf.dropLast).map (fun n => n * 24 * 7)
  else some 24

/-! ### trend_analyzer.py : data model and analyzer -/

/-- trend_analyzer.py DataPoint dataclass (lines 13-20). -/
structure DataPoint where
  text : PyStr
  source : String
  url : Option String
  timestamp : Option String
  engagement : Option Int
  platform : String
deriving DecidableEq

/-- trend_analyzer.py TrendData dataclass (lines 22-35). -/
structure TrendData where
  keyword : String
  timeframe : String
  total_mentions : Nat
  twitter_mentions : Nat
  web_mentions : Nat
  overall_sentiment : SentimentSummary
  twitter_sentiment : SentimentSummary
  web_sentiment : SentimentSummary
  top_sources : List String
  sample_mentions : List DataPoint
  trend_direction : String
  analysis_timestamp : String

/-- Everything external to the analyzer: configuration credentials, the
sentiment model, the outcome of the two network fetch paths per keyword, and
the wall clock.  `twitter_fetch keyword` is the list of data points the
Twitter search loop (trend_analyzer.py lines 55-85) would build for a
configured client, and `web_fetch keyword` likewise for the scrape loop
(lines 92-136); both loops swallow provider errors and return what was
collected, so a plain list is their full observable behaviour. -/
structure AnalyzerEnv where
  model : SentimentModel
  TWITTER_BEARER_TOKEN : Option String
  FIRECRAWL_API_KEY : Option String
  twitter_fetch : String → List DataPoint
  web_fetch : String → List DataPoint
  now : String

/-- Python truthiness of an optional string: None and the empty string are
falsy (config values come from os.getenv). -/
def pyTruthy : Option String → Bool
  | none => false
  | some s => !s.isEmpty

/-- TrendAnalyzer.search_twitter (lines 50-85): the client exists only when
the bearer token is truthy (constructor, lines 44-48); without it the
method warns and returns the empty list. -/
def search_twitter (env : AnalyzerEnv) (keyword : String) : List DataPoint :=
  if !pyTruthy env.TWITTER_BEARER_TOKEN then [] else env.twitter_fetch keyword

/-- TrendAnalyzer.search_web (lines 87-136): without the Firecrawl API key
the method warns and returns the empty list. -/
def search_web (env : AnalyzerEnv) (keyword : String) : List DataPoint :=
  if !pyTruthy env.FIRECRAWL_API_KEY then [] else env.web_fetch keyword

/-- TrendAnalyzer._calculate_trend_direction (lines 193-201). -/
def calculate_trend_direction (twitter_data web_data : List DataPoint) : String :=
  let total_volume := twitter_data.length + web_data.length
  if total_volume > 50 then "rising"
  else if total_volume > 10 then "stable"
  else "falling"

/-- One iteration of the counting loop of _get_top_sources (lines 206-208):
`source_counts[source] = source_counts.get(source, 0) + 1` on an
insertion-ordered dict, i.e. increment the existing entry in place or append
a fresh entry with count 1. -/
def bump : List (String × Nat) → String → List (String × Nat)
  | [], s => [(s, 1)]
  | (t, n) :: rest, s => if t = s then (t, n + 1) :: rest else (t, n) :: bump rest s

/-- The source_counts dict of _get_top_sources after the counting loop,
as an insertion-ordered association list. -/
def source_counts (data_points : List DataPoint) : List (String × Nat) :=
  data_points.foldl (fun acc dp => bump acc dp.source) []

/-- Stable descending insertion by count: walk past entries with a strictly
larger count, then sit in front of the first entry whose count is not
larger.  Auxiliary to `sortCountsDesc`. -/
def insertDesc (x : String × Nat) : List (String × Nat) → List (String × Nat)
  | [] => [x]
  | y :: ys => if x.2 < y.2 then y :: insertDesc x ys else x :: y :: ys

/-- Python `sorted(items, key=lambda x: x[1], reverse=True)` (line 210): a
stable sort by count descending (CPython's sort is stable, and reverse=True
keeps equal elements in their original order).  Embedded as stable insertion
sort, which computes the same list. -/
def sortCountsDesc : List (String × Nat) → List (String × Nat)
  | [] => []
  | x :: xs => insertDesc x (sortCountsDesc xs)

/-- TrendAnalyzer._get_top_sources (lines 203-211): count mentions per
source, sort by count descending (stable), keep the first five source names. -/
def get_top_sources (data_points : List DataPoint) : List String :=
  ((sortCountsDesc (source_counts data_points)).take 5).map Prod.fst

/-- TrendAnalyzer.analyze_trend (lines 155-191).  A total function: apart
from the external calls abstracted into `env`, every step is pure list and
arithmetic manipulation, so the analysis never raises. -/
def analyze_trend (env : AnalyzerEnv) (keyword : String) (timeframe : String) : TrendData :=
  let twitter_data := search_twitter env keyword
  let web_data := search_web env keyword
  let twitter_texts := twitter_data.map DataPoint.text
  let web_texts := web_data.map DataPoint.text
  let twitter_sentiment := get_overall_sentiment env.model twitter_texts
  let web_sentiment := get_overall_sentiment env.model web_texts
  let all_texts := twitter_texts ++ web_texts
  let overall_sentiment := get_overall_sentiment env.model all_texts
  let trend_direction := calculate_trend_direction twitter_data web_data
  let top_sources := get_top_sources (twitter_data ++ web_data)
  let sample_mentions := (twitter_data.take 3 ++ web_data.take 3).take 6
  ⟨keyword, timeframe, twitter_data.length + web_data.length,
   twitter_data.length, web_data.length,
   overall_sentiment, twitter_sentiment, web_sentiment,
   top_sources, sample_mentions, trend_direction, env.now⟩

/-- Python dict assignment `results[keyword] = report` on an
insertion-ordered dict: overwrite in place if the key exists, else append. -/
def dictInsert (d : List (String × TrendData)) (k : String) (v : TrendData) :
    List (String × TrendData) :=
  if d.any (fun p => p.1 == k) then
    d.map (fun p => if p.1 = k then (k, v) else p)
  else d ++ [(k, v)]

/-- TrendAnalyzer.compare_trends (lines 213-224).  The per-keyword analysis
is abstracted as `analyze : String → Option TrendData`; `none` models the
exception the try block catches, upon which the keyword is logged and
skipped.  The function itself is total: no exception escapes. -/
def compare_trends (analyze : String → Option TrendData) (keywords : List String) :
    List (String × TrendData) :=
  keywords.foldl (fun results keyword =>
    match analyze keyword with
    | some report => dictInsert results keyword report
    | none => results) []

/-! ### Spec-side counting helpers (used only in theorem statements) -/

/-- Number of data points carrying the given source identifier. -/
def sourceCount (dps : List DataPoint) (s : String) : Nat :=
  dps.countP (fun dp => dp.source == s)

/-- Index of the first data point carrying the given source identifier
(the encounter order of the claim about tie-breaking). -/
def firstIndexOf (dps : List DataPoint) (s : String) : Nat :=
  dps.findIdx (fun dp => dp.source == s)

/-- Total count recorded for a key across an association list. -/
def sumCount (l : List (String × Nat)) (s : String) : Nat :=
  (l.map (fun p => if p.1 = s then p.2 else 0)).sum

/-- The trend-direction bucket as a function of combined volume alone,
with the thresholds of _calculate_trend_direction. -/
def volume_direction (v : Nat) : String :=
  if v > 50 then "rising"
  else if v > 10 then "stable"
  else "falling"

/-- A concrete data point, for boundary-value instances. -/
def sampleDataPoint : DataPoint := ⟨['h', 'i'], "twitter", none, none, none, "twitter"⟩

/-- An environment with both credentials absent; the fetch functions would
return a mention if consulted, so emptiness below comes from the credential
guards alone. -/
def envNoCreds : AnalyzerEnv :=
  ⟨⟨fun _ => 0, fun _ => 0⟩, none, none,
   fun _ => [sampleDataPoint], fun _ => [sampleDataPoint], "2024-01-01T00:00:00"⟩

/-- Claim C1: for every TrendReport produced by analyze_trend, over any
environment (hence any lists of mentions the two collector paths produce),
the total_mentions field equals twitter_mentions plus web_mentions. -/
theorem total_mentions_eq_twitter_add_web (env : AnalyzerEnv) (keyword timeframe : String) :
    (analyze_trend env keyword timeframe).total_mentions =
      (analyze_trend env keyword timeframe).twitter_mentions +
        (analyze_trend env keyword timeframe).web_mentions := rfl

/-- Claim C2: trend direction is a pure function of the combined mention
volume, rising above 50, stable above 10 and up to 50, falling at 10 or
below; with the boundary volumes 51, 50, 11 and 10 evaluated concretely. -/
theorem trend_direction_pure_volume :
    (∀ twitter_data web_data : List DataPoint,
      calculate_trend_direction twitter_data web_data =
        volume_direction (twitter_data.length + web_data.length)) ∧
    volume_direction 51 = "rising" ∧ volume_direction 50 = "stable" ∧
    volume_direction 11 = "stable" ∧ volume_direction 10 = "falling" ∧
    calculate_trend_direction (List.replicate 51 sampleDataPoint) [] = "rising" ∧
    calculate_trend_direction (List.replicate 50 sampleDataPoint) [] = "stable" ∧
    calculate_trend_direction (List.replicate 11 sampleDataPoint) [] = "stable" ∧
    calculate_trend_direction (List.replicate 10 sampleDataPoint) [] = "falling" :=
  ⟨fun _ _ => rfl, rfl, rfl, rfl, rfl, rfl, rfl, rfl, rfl⟩

/-- Claim C3: with neither credential configured, analyze_trend on any
keyword returns zero mention counts, overall label neutral, direction
falling, empty top_sources and empty sample_mentions; the function is total,
so nothing is raised. -/
theorem analyze_trend_no_credentials (env : AnalyzerEnv) (keyword timeframe : String)
    (htw : pyTruthy env.TWITTER_BEARER_TOKEN = false)
    (hfc : pyTruthy env.FIRECRAWL_API_KEY = false) :
    (analyze_trend env keyword timeframe).total_mentions = 0 ∧
    (analyze_trend env keyword timeframe).twitter_mentions = 0 ∧
    (analyze_trend env keyword timeframe).web_mentions = 0 ∧
    (analyze_trend env keyword timeframe).overall_sentiment.overall_label = "neutral" ∧
    (analyze_trend env keyword timeframe).trend_direction = "falling" ∧
    (analyze_trend env keyword timeframe).top_sources = [] ∧
    (analyze_trend env keyword timeframe).sample_mentions = [] := by
  have ht : search_twitter env keyword = [] := by simp [search_twitter, htw]
  have hw : search_web env keyword = [] := by simp [search_web, hfc]
  simp [analyze_trend, ht, hw, get_overall_sentiment, calculate_trend_direction,
        get_top_sources, source_counts, sortCountsDesc]

/-- Witness for C3 at the concrete credential-free environment and the
keyword of the specification's end-to-end example. -/
theorem analyze_trend_no_credentials_witness :
    pyTruthy envNoCreds.TWITTER_BEARER_TOKEN = false ∧
    pyTruthy envNoCreds.FIRECRAWL_API_KEY = false ∧
    ((analyze_trend envNoCreds "AI regulation" "24h").total_mentions = 0 ∧
     (analyze_trend envNoCreds "AI regulation" "24h").twitter_mentions = 0 ∧
     (analyze_trend envNoCreds "AI regulation" "24h").web_mentions = 0 ∧
     (analyze_trend envNoCreds "AI regulation" "24h").overall_sentiment.overall_label = "neutral" ∧
     (analyze_trend envNoCreds "AI regulation" "24h").trend_direction = "falling" ∧
     (analyze_trend envNoCreds "AI regulation" "24h").top_sources = [] ∧
     (analyze_trend envNoCreds "AI regulation" "24h").sample_mentions = []) :=
  ⟨rfl, rfl, analyze_trend_no_credentials envNoCreds "AI regulation" "24h" rfl rfl⟩

/-- Claim C6: get_overall_sentiment on the empty list returns the
zero-valued summary with label neutral and, in particular,
sentiment_distribution is none: the percentage divisions of the non-empty
branch are never performed on empty input. -/
theorem summarize_empty_zero (m : SentimentModel) :
    get_overall_sentiment m [] = ⟨0, "neutral", 0, 0, 0, 0, 0, none⟩ := rfl

/-! ### Classification lemmas -/

/-- The classification chain returns the positive label exactly above the
positive threshold. -/
theorem classify_eq_positive_iff (s : ℚ) :
    classify s = "positive" ↔ positive_threshold < s := by
  unfold classify
  split_ifs with h1 h2
  · exact iff_of_true rfl h1
  · exact iff_of_false (by decide) h1
  · exact iff_of_false (by decide) h1

/-- The classification chain returns the negative label exactly below the
negative threshold. -/
theorem classify_eq_negative_iff (s : ℚ) :
    classify s = "negative" ↔ s < negative_threshold := by
  unfold classify
  split_ifs with h1 h2
  · refine iff_of_false (by decide) (fun hs => lt_irrefl s (hs.trans ?_))
    exact lt_trans (by norm_num [negative_threshold, positive_threshold]) h1
  · exact iff_of_true rfl h2
  · exact iff_of_false (by decide) h2

/-- The classification chain returns the neutral label exactly on the closed
interval between the two thresholds. -/
theorem classify_eq_neutral_iff (s : ℚ) :
    classify s = "neutral" ↔ negative_threshold ≤ s ∧ s ≤ positive_threshold := by
  unfold classify
  split_ifs with h1 h2
  · exact iff_of_false (by decide) (fun h => absurd h1 (not_lt.mpr h.2))
  · exact iff_of_false (by decide) (fun h => absurd h2 (not_lt.mpr h.1))
  · exact iff_of_true rfl ⟨not_lt.mp h2, not_lt.mp h1⟩

/-- Every classification is one of the three labels. -/
theorem classify_mem_labels (s : ℚ) :
    classify s = "positive" ∨ classify s = "negative" ∨ classify s = "neutral" := by
  unfold classify
  split_ifs <;> simp

/-- Every analyze_text result carries one of the three labels. -/
theorem analyze_text_label_mem (m : SentimentModel) (text : PyStr) :
    (analyze_text m text).label = "positive" ∨
    (analyze_text m text).label = "negative" ∨
    (analyze_text m text).label = "neutral" := by
  unfold analyze_text
  split_ifs with h
  · simp
  · exact classify_mem_labels _

/-- Claim C4: for every non-blank text, the label of the analyze_text result
agrees with the fixed thresholds applied to its score, and the overall label
of get_overall_sentiment on a non-empty list is the same classification
chain applied to the unrounded average score. -/
theorem sentiment_label_thresholds (m : SentimentModel) (text : PyStr) (texts : List PyStr)
    (htext : pyIsBlank text = false) (htexts : texts ≠ []) :
    ((analyze_text m text).label = "positive" ↔
      positive_threshold < (analyze_text m text).score) ∧
    ((analyze_text m text).label = "negative" ↔
      (analyze_text m text).score < negative_threshold) ∧
    ((analyze_text m text).label = "neutral" ↔
      (negative_threshold ≤ (analyze_text m text).score ∧
       (analyze_text m text).score ≤ positive_threshold)) ∧
    (get_overall_sentiment m texts).overall_label =
      classify (((analyze_batch m texts).map SentimentResult.score).sum /
        ((analyze_batch m texts).length : ℚ)) := by
  have hat : analyze_text m text =
      ⟨text, m.polarity (clean_text text), m.subjectivity (clean_text text),
       classify (m.polarity (clean_text text))⟩ := by
    simp [analyze_text, htext]
  refine ⟨?_, ?_, ?_, ?_⟩
  · rw [hat]; exact classify_eq_positive_iff _
  · rw [hat]; exact classify_eq_negative_iff _
  · rw [hat]; exact classify_eq_neutral_iff _
  · simp [get_overall_sentiment, htexts]

/-- Witness for C4: a model assigning polarity one fifth, the non-blank
text hi, and a one-element text list. -/
theorem sentiment_label_thresholds_witness :
    pyIsBlank ['h', 'i'] = false ∧ ([['h', 'i']] : List PyStr) ≠ [] ∧
    (((analyze_text ⟨fun _ => 1 / 5, fun _ => 1 / 2⟩ ['h', 'i']).label = "positive" ↔
      positive_threshold < (analyze_text ⟨fun _ => 1 / 5, fun _ => 1 / 2⟩ ['h', 'i']).score) ∧
     ((analyze_text ⟨fun _ => 1 / 5, fun _ => 1 / 2⟩ ['h', 'i']).label = "negative" ↔
      (analyze_text ⟨fun _ => 1 / 5, fun _ => 1 / 2⟩ ['h', 'i']).score < negative_threshold) ∧
     ((analyze_text ⟨fun _ => 1 / 5, fun _ => 1 / 2⟩ ['h', 'i']).label = "neutral" ↔
      (negative_threshold ≤ (analyze_text ⟨fun _ => 1 / 5, fun _ => 1 / 2⟩ ['h', 'i']).score ∧
       (analyze_text ⟨fun _ => 1 / 5, fun _ => 1 / 2⟩ ['h', 'i']).score ≤ positive_threshold)) ∧
     (get_overall_sentiment ⟨fun _ => 1 / 5, fun _ => 1 / 2⟩ [['h', 'i']]).overall_label =
      classify (((analyze_batch ⟨fun _ => 1 / 5, fun _ => 1 / 2⟩ [['h', 'i']]).map
          SentimentResult.score).sum /
        ((analyze_batch ⟨fun _ => 1 / 5, fun _ => 1 / 2⟩ [['h', 'i']]).length : ℚ))) :=
  ⟨by decide, by decide,
   sentiment_label_thresholds ⟨fun _ => 1 / 5, fun _ => 1 / 2⟩ ['h', 'i'] [['h', 'i']]
     (by decide) (by decide)⟩

/-- Claim C5: on blank input analyze_text returns score 0, confidence 0 and
label neutral as a literal record, independent of the model (the model is
not invoked); and whenever the cleaned text is blank, the returned score is
0, given that the external model maps blank text to polarity 0 (TextBlob
returns polarity 0.0 for empty text). -/
theorem scoreOne_blank_soft (m : SentimentModel) (text : PyStr)
    (hmodel : ∀ s : PyStr, pyIsBlank s = true → m.polarity s = 0) :
    (pyIsBlank text = true → analyze_text m text = ⟨text, 0, 0, "neutral"⟩) ∧
    (pyIsBlank (clean_text text) = true → (analyze_text m text).score = 0) := by
  constructor
  · intro h
    simp [analyze_text, h]
  · intro hclean
    by_cases hb : pyIsBlank text = true
    · simp [analyze_text, hb]
    · simp [analyze_text, hb, hmodel _ hclean]

/-- Witness for C5: a model that is zero on blank strings and one half
elsewhere, applied to a hashtag-only text (non-blank, but blank after
cleaning) and to a whitespace-only text. -/
theorem scoreOne_blank_soft_witness :
    pyIsBlank [' '] = true ∧
    pyIsBlank (clean_text ['#', 't', 'a', 'g']) = true ∧
    analyze_text ⟨fun s => if pyIsBlank s then 0 else 1 / 2, fun _ => 1 / 2⟩ [' '] =
      ⟨[' '], 0, 0, "neutral"⟩ ∧
    (analyze_text ⟨fun s => if pyIsBlank s then 0 else 1 / 2, fun _ => 1 / 2⟩
      ['#', 't', 'a', 'g']).score = 0 :=
  ⟨by decide, by decide,
   (scoreOne_blank_soft ⟨fun s => if pyIsBlank s then 0 else 1 / 2, fun _ => 1 / 2⟩ [' ']
     (fun s hs => by simp [hs])).1 (by decide),
   (scoreOne_blank_soft ⟨fun s => if pyIsBlank s then 0 else 1 / 2, fun _ => 1 / 2⟩
     ['#', 't', 'a', 'g'] (fun s hs => by simp [hs])).2 (by decide)⟩

/-- A list of results each labelled with one of the three labels is fully
partitioned by the three label counts. -/
theorem countP_labels_partition (l : List SentimentResult)
    (h : ∀ r ∈ l, r.label = "positive" ∨ r.label = "negative" ∨ r.label = "neutral") :
    l.countP (fun r => r.label == "positive") + l.countP (fun r => r.label == "negative") +
      l.countP (fun r => r.label == "neutral") = l.length := by
  induction l with
  | nil => rfl
  | cons r rs ih =>
    have hr := h r (by simp)
    have hrs := ih (fun x hx => h x (by simp [hx]))
    rcases hr with h1 | h1 | h1 <;>
      simp [List.countP_cons, h1, Nat.add_comm, Nat.add_left_comm] <;> omega

/-- Claim C10: for every non-empty list of texts, the three per-label counts
of the summary add up to total_count, and total_count is the length of the
input list. -/
theorem summarize_counts_partition (m : SentimentModel) (texts : List PyStr)
    (h : texts ≠ []) :
    (get_overall_sentiment m texts).positive_count +
      (get_overall_sentiment m texts).negative_count +
      (get_overall_sentiment m texts).neutral_count =
      (get_overall_sentiment m texts).total_count ∧
    (get_overall_sentiment m texts).total_count = texts.length := by
  have hpart := countP_labels_partition (analyze_batch m texts)
    (fun r hr => by
      obtain ⟨t, _, rfl⟩ := List.mem_map.mp hr
      exact analyze_text_label_mem m t)
  constructor
  · simp only [get_overall_sentiment, h, List.isEmpty_eq_true, if_false]
    simpa using hpart
  · simp [get_overall_sentiment, h, analyze_batch]

/-- Witness for C10 at a concrete model and a two-element text list. -/
theorem summarize_counts_partition_witness :
    ([['h', 'i'], [' ']] : List PyStr) ≠ [] ∧
    ((get_overall_sentiment ⟨fun _ => 1 / 5, fun _ => 1 / 2⟩ [['h', 'i'], [' ']]).positive_count +
      (get_overall_sentiment ⟨fun _ => 1 / 5, fun _ => 1 / 2⟩ [['h', 'i'], [' ']]).negative_count +
      (get_overall_sentiment ⟨fun _ => 1 / 5, fun _ => 1 / 2⟩ [['h', 'i'], [' ']]).neutral_count =
      (get_overall_sentiment ⟨fun _ => 1 / 5, fun _ => 1 / 2⟩ [['h', 'i'], [' ']]).total_count ∧
     (get_overall_sentiment ⟨fun _ => 1 / 5, fun _ => 1 / 2⟩ [['h', 'i'], [' ']]).total_count = 2) :=
  ⟨by decide,
   summarize_counts_partition ⟨fun _ => 1 / 5, fun _ => 1 / 2⟩ [['h', 'i'], [' ']] (by decide)⟩

/-! ### Timeframe parser lemmas -/

/-- dropWhile is the identity when no element satisfies the predicate. -/
theorem dropWhile_eq_self_of_none {p : Char → Bool} {l : PyStr}
    (h : ∀ c ∈ l, p c = false) : l.dropWhile p = l := by
  cases l with
  | nil => rfl
  | cons c cs => simp [List.dropWhile_cons, h c (List.mem_cons_self c cs)]

/-- Decimal digits are not Python whitespace. -/
theorem pyIsSpace_eq_false_of_isDigit {c : Char} (h : c.isDigit = true) :
    pyIsSpace c = false := by
  simp only [Char.isDigit, Bool.and_eq_true, decide_eq_true_eq] at h
  simp only [pyIsSpace, Bool.or_eq_false_iff, decide_eq_false_iff_not]
  refine ⟨⟨⟨⟨⟨?_, ?_⟩, ?_⟩, ?_⟩, ?_⟩, ?_⟩ <;> rintro rfl <;> revert h <;> decide

/-- Stripping a whitespace-free string is the identity. -/
theorem pyStrip_eq_self {l : PyStr} (h : ∀ c ∈ l, pyIsSpace c = false) :
    pyStrip l = l := by
  unfold pyStrip
  rw [dropWhile_eq_self_of_none h,
      dropWhile_eq_self_of_none (fun c hc => h c (List.mem_reverse.mp hc)),
      List.reverse_reverse]

/-- Python int() on a non-empty all-digit string returns its decimal value. -/
theorem pyInt_digits {ds : List Char} (hne : ds ≠ []) (hdig : ds.all Char.isDigit = true) :
    pyInt ds = some (digitsVal ds : Int) := by
  have hnospace : ∀ c ∈ ds, pyIsSpace c = false := fun c hc =>
    pyIsSpace_eq_false_of_isDigit (List.all_eq_true.mp hdig c hc)
  unfold pyInt
  rw [pyStrip_eq_self hnospace]
  cases ds with
  | nil => exact absurd rfl hne
  | cons c cs =>
    have hc : c.isDigit = true := List.all_eq_true.mp hdig c (List.mem_cons_self c cs)
    have hplus : ¬(c = '+') := fun he => by subst he; revert hc; decide
    have hminus : ¬(c = '-') := fun he => by subst he; revert hc; decide
    simp [hplus, hminus, hdig]

/-- Claim C9: the timeframe parser maps a digit string followed by h to its
decimal value in hours, followed by d to 24 times it, followed by w to 168
times it, and maps every string with an unrecognized suffix to 24 hours. -/
theorem get_timeframe_hours_spec (ds : List Char) (tf : PyStr)
    (hne : ds ≠ []) (hdig : ds.all Char.isDigit = true)
    (hh : tf.getLast? ≠ some 'h') (hd : tf.getLast? ≠ some 'd')
    (hw : tf.getLast? ≠ some 'w') :
    get_timeframe_hours (some (ds ++ ['h'])) = some (digitsVal ds : Int) ∧
    get_timeframe_hours (some (ds ++ ['d'])) = some ((digitsVal ds : Int) * 24) ∧
    get_timeframe_hours (some (ds ++ ['w'])) = some ((digitsVal ds : Int) * 168) ∧
    get_timeframe_hours (some tf) = some 24 := by
  refine ⟨?_, ?_, ?_, ?_⟩
  · simp [get_timeframe_hours, List.getLast?_concat, List.dropLast_concat,
          pyInt_digits hne hdig]
  · simp [get_timeframe_hours, List.getLast?_concat, List.dropLast_concat,
          pyInt_digits hne hdig]
  · have h168 : (digitsVal ds : Int) * 24 * 7 = (digitsVal ds : Int) * 168 := by ring
    simp [get_timeframe_hours, List.getLast?_concat, List.dropLast_concat,
          pyInt_digits hne hdig, h168]
  · cases tf with
    | nil => rfl
    | cons c cs => simp [get_timeframe_hours, hh, hd, hw]

/-- Witness for C9 at the digit string 3 and the unrecognized suffix 2x. -/
theorem get_timeframe_hours_spec_witness :
    (['3'] : List Char) ≠ [] ∧ (['3'] : List Char).all Char.isDigit = true ∧
    (['2', 'x'] : PyStr).getLast? ≠ some 'h' ∧
    (['2', 'x'] : PyStr).getLast? ≠ some 'd' ∧
    (['2', 'x'] : PyStr).getLast? ≠ some 'w' ∧
    (get_timeframe_hours (some (['3'] ++ ['h'])) = some (digitsVal ['3'] : Int) ∧
     get_timeframe_hours (some (['3'] ++ ['d'])) = some ((digitsVal ['3'] : Int) * 24) ∧
     get_timeframe_hours (some (['3'] ++ ['w'])) = some ((digitsVal ['3'] : Int) * 168) ∧
     get_timeframe_hours (some ['2', 'x']) = some 24) :=
  ⟨by decide, by decide, by decide, by decide, by decide,
   get_timeframe_hours_spec ['3'] ['2', 'x'] (by decide) (by decide) (by decide)
     (by decide) (by decide)⟩

/-! ### compare_trends lemmas -/

/-- A key is among the mapped firsts of an association list exactly when
some value is stored under it. -/
theorem mem_keys_iff (l : List (String × TrendData)) (k : String) :
    k ∈ l.map Prod.fst ↔ ∃ v, (k, v) ∈ l := by
  constructor
  · intro h
    obtain ⟨p, hp, hk⟩ := List.mem_map.mp h
    exact ⟨p.2, by rw [← hk, Prod.mk.eta]; exact hp⟩
  · rintro ⟨v, hv⟩
    exact List.mem_map.mpr ⟨(k, v), hv, rfl⟩

/-- dictInsert either rewrites a value in place (keys unchanged) or appends
the new key at the end. -/
theorem dictInsert_keys (d : List (String × TrendData)) (k0 : String) (v0 : TrendData) :
    (dictInsert d k0 v0).map Prod.fst =
      if d.any (fun p => p.1 == k0) then d.map Prod.fst else d.map Prod.fst ++ [k0] := by
  unfold dictInsert
  split_ifs with h
  · rw [List.map_map]
    apply List.map_congr_left
    intro p _
    by_cases hpk : p.1 = k0 <;> simp [hpk]
  · simp

/-- Key membership after dictInsert: the inserted key, or any previous key. -/
theorem dictInsert_mem_keys (d : List (String × TrendData)) (k0 k : String) (v0 : TrendData) :
    (k ∈ (dictInsert d k0 v0).map Prod.fst) ↔ (k = k0 ∨ k ∈ d.map Prod.fst) := by
  rw [dictInsert_keys]
  split_ifs with h
  · constructor
    · exact Or.inr
    · rintro (rfl | hk)
      · obtain ⟨p, hp, he⟩ := List.any_eq_true.mp h
        exact List.mem_map.mpr ⟨p, hp, by simpa using he⟩
      · exact hk
  · simp [or_comm]

/-- Key membership across the accumulating loop of compare_trends. -/
theorem compare_trends_foldl_keys (analyze : String → Option TrendData) (l : List String) :
    ∀ (acc : List (String × TrendData)) (k : String),
      (k ∈ (l.foldl (fun results keyword =>
          match analyze keyword with
          | some report => dictInsert results keyword report
          | none => results) acc).map Prod.fst) ↔
        (k ∈ acc.map Prod.fst ∨ (k ∈ l ∧ (analyze k).isSome = true)) := by
  induction l with
  | nil => intro acc k; simp
  | cons kw l' ih =>
    intro acc k
    rw [List.foldl_cons]
    cases hkw : analyze kw with
    | none =>
      simp only [hkw]
      rw [ih]
      constructor
      · rintro (h | h)
        · exact Or.inl h
        · exact Or.inr ⟨List.mem_cons_of_mem _ h.1, h.2⟩
      · rintro (h | ⟨hmem, hsome⟩)
        · exact Or.inl h
        · rcases List.mem_cons.mp hmem with rfl | h'
          · rw [hkw] at hsome; simp at hsome
          · exact Or.inr ⟨h', hsome⟩
    | some t =>
      simp only [hkw]
      rw [ih, dictInsert_mem_keys]
      constructor
      · rintro ((rfl | h) | h)
        · exact Or.inr ⟨List.mem_cons_self _ _, by simp [hkw]⟩
        · exact Or.inl h
        · exact Or.inr ⟨List.mem_cons_of_mem _ h.1, h.2⟩
      · rintro (h | ⟨hmem, hsome⟩)
        · exact Or.inl (Or.inr h)
        · rcases List.mem_cons.mp hmem with rfl | h'
          · exact Or.inl (Or.inl rfl)
          · exact Or.inr ⟨h', hsome⟩

/-- Claim C8: compare_trends holds an entry for exactly the keywords whose
analysis succeeded: a keyword whose analysis fails (analyze returns none,
modelling the caught exception) is omitted, every other listed keyword is
present; compare_trends is a total function, so no exception escapes. -/
theorem compare_trends_mem (analyze : String → Option TrendData)
    (keywords : List String) (k : String) :
    (∃ v, (k, v) ∈ compare_trends analyze keywords) ↔
      (k ∈ keywords ∧ (analyze k).isSome = true) := by
  rw [← mem_keys_iff]
  unfold compare_trends
  rw [compare_trends_foldl_keys]
  simp

/-! ### Top-sources counting lemmas -/

/-- sumCount on a cons splits into the head contribution and the tail. -/
theorem sumCount_cons (p : String × Nat) (rest : List (String × Nat)) (t : String) :
    sumCount (p :: rest) t = (if p.1 = t then p.2 else 0) + sumCount rest t := by
  simp [sumCount]

/-- A key absent from an association list has total count zero. -/
theorem sumCount_eq_zero_of_not_mem {l : List (String × Nat)} {s : String}
    (h : s ∉ l.map Prod.fst) : sumCount l s = 0 := by
  induction l with
  | nil => rfl
  | cons p rest ih =>
    simp only [List.map_cons, List.mem_cons] at h
    push_neg at h
    rw [sumCount_cons, if_neg (fun he : p.1 = s => h.1 he.symm), ih h.2]

/-- bump adds exactly one to the bumped key's total count. -/
theorem sumCount_bump (l : List (String × Nat)) (s t : String) :
    sumCount (bump l s) t = sumCount l t + (if s = t then 1 else 0) := by
  induction l with
  | nil => simp [bump, sumCount]
  | cons p rest ih =>
    obtain ⟨u, n⟩ := p
    by_cases hus : u = s
    · subst hus
      rw [bump, if_pos rfl, sumCount_cons, sumCount_cons]
      by_cases hut : u = t <;> simp [hut] <;> try omega
    · rw [bump, if_neg hus, sumCount_cons, sumCount_cons, ih]
      omega

/-- Total counts across the counting loop of _get_top_sources. -/
theorem sumCount_foldl_bump (l : List DataPoint) :
    ∀ (acc : List (String × Nat)) (t : String),
      sumCount (l.foldl (fun acc dp => bump acc dp.source) acc) t =
        sumCount acc t + l.countP (fun dp => dp.source == t) := by
  induction l with
  | nil => intro acc t; simp
  | cons dp l' ih =>
    intro acc t
    rw [List.foldl_cons, ih, sumCount_bump, List.countP_cons]
    by_cases h : dp.source = t <;> simp [h] <;> try omega

/-- The count the dict of _get_top_sources records per source is the number
of data points carrying that source. -/
theorem sumCount_source_counts (dps : List DataPoint) (t : String) :
    sumCount (source_counts dps) t = sourceCount dps t := by
  unfold source_counts sourceCount
  rw [sumCount_foldl_bump]
  simp [sumCount]

/-- The keys of bump: unchanged when the key exists, appended otherwise. -/
theorem bump_keys (l : List (String × Nat)) (s : String) :
    (bump l s).map Prod.fst =
      if s ∈ l.map Prod.fst then l.map Prod.fst else l.map Prod.fst ++ [s] := by
  induction l with
  | nil => simp [bump]
  | cons p rest ih =>
    obtain ⟨u, n⟩ := p
    by_cases hus : u = s
    · subst hus; simp [bump]
    · have hsu : ¬s = u := fun h => hus h.symm
      by_cases hmem : s ∈ rest.map Prod.fst
      · simp [bump, hus, hsu, ih, hmem]
      · simp [bump, hus, hsu, ih, hmem]

/-- bump preserves key distinctness. -/
theorem bump_keys_nodup {l : List (String × Nat)} (h : (l.map Prod.fst).Nodup)
    (s : String) : ((bump l s).map Prod.fst).Nodup := by
  rw [bump_keys]
  split_ifs with hmem
  · exact h
  · simp [List.nodup_append, h, hmem]

/-- The dict of _get_top_sources has pairwise-distinct keys. -/
theorem source_counts_keys_nodup (dps : List DataPoint) :
    ((source_counts dps).map Prod.fst).Nodup := by
  unfold source_counts
  suffices h : ∀ (l : List DataPoint) (acc : List (String × Nat)),
      (acc.map Prod.fst).Nodup →
      ((l.foldl (fun acc dp => bump acc dp.source) acc).map Prod.fst).Nodup by
    exact h dps [] (by simp)
  intro l
  induction l with
  | nil => intro acc h; simpa using h
  | cons dp l' ih =>
    intro acc h
    rw [List.foldl_cons]
    exact ih _ (bump_keys_nodup h dp.source)

/-- With distinct keys, a stored entry records the key's total count. -/
theorem entry_eq_sumCount {l : List (String × Nat)} (h : (l.map Prod.fst).Nodup)
    {s : String} {n : Nat} (hmem : (s, n) ∈ l) : n = sumCount l s := by
  induction l with
  | nil => simp at hmem
  | cons p rest ih =>
    rw [List.map_cons, List.nodup_cons] at h
    rcases List.mem_cons.mp hmem with he | hmem'
    · have hps : p.1 = s := by rw [← he]
      have hpn : p.2 = n := by rw [← he]
      have hzero : sumCount rest s = 0 :=
        sumCount_eq_zero_of_not_mem (hps ▸ h.1)
      rw [sumCount_cons, hzero, if_pos hps, hpn]
      omega
    · have hps : ¬p.1 = s := fun he2 =>
        h.1 (he2 ▸ List.mem_map.mpr ⟨(s, n), hmem', rfl⟩)
      rw [sumCount_cons, if_neg hps, ih h.2 hmem']
      omega

/-! ### Encounter-order lemmas -/

/-- Appending on the right does not move the first occurrence of a source
that already occurs on the left. -/
theorem firstIndexOf_append_of_mem {pre : List DataPoint} {s : String}
    (h : ∃ dp ∈ pre, dp.source = s) (l : List DataPoint) :
    firstIndexOf (pre ++ l) s = firstIndexOf pre s := by
  induction pre with
  | nil => simp at h
  | cons dp pre' ih =>
    by_cases hdp : dp.source = s
    · simp [firstIndexOf, List.findIdx_cons, hdp]
    · have h' : ∃ d ∈ pre', d.source = s := by
        rcases h with ⟨d, hd, hds⟩
        rcases List.mem_cons.mp hd with rfl | hd'
        · exact absurd hds hdp
        · exact ⟨d, hd', hds⟩
      have := ih h'
      simp only [firstIndexOf, List.cons_append, List.findIdx_cons] at *
      simp [hdp, this]

/-- The first occurrence of a source absent from the left part lies in the
right part, offset by the left length. -/
theorem firstIndexOf_append_not_mem {pre : List DataPoint} {s : String}
    (h : ∀ dp ∈ pre, dp.source ≠ s) (l : List DataPoint) :
    firstIndexOf (pre ++ l) s = pre.length + firstIndexOf l s := by
  induction pre with
  | nil => simp [firstIndexOf]
  | cons dp pre' ih =>
    have hdp : dp.source ≠ s := h dp (List.mem_cons_self dp pre')
    have hrec := ih (fun d hd => h d (List.mem_cons_of_mem dp hd))
    have hbeq : (dp.source == s) = false := by simp [hdp]
    simp only [firstIndexOf, List.cons_append, List.findIdx_cons] at hrec ⊢
    simp [hbeq, hrec]
    omega

/-- A source occurring in the list has its first occurrence inside it. -/
theorem firstIndexOf_lt_length {pre : List DataPoint} {s : String}
    (h : ∃ dp ∈ pre, dp.source = s) : firstIndexOf pre s < pre.length :=
  List.findIdx_lt_length_of_exists (by
    obtain ⟨dp, hdp, hds⟩ := h
    exact ⟨dp, hdp, by simp [hds]⟩)

/-- Invariant of the counting loop: relative to the processed prefix, the
dict keys are exactly the sources seen so far, listed in first-encounter
order. -/
theorem source_counts_keys_ordered_aux (l : List DataPoint) :
    ∀ (pre : List DataPoint) (acc : List (String × Nat)),
      (∀ s ∈ acc.map Prod.fst, ∃ dp ∈ pre, dp.source = s) →
      (∀ dp ∈ pre, dp.source ∈ acc.map Prod.fst) →
      ((acc.map Prod.fst).Pairwise (fun a b => firstIndexOf pre a < firstIndexOf pre b)) →
      (∀ s ∈ (l.foldl (fun acc dp => bump acc dp.source) acc).map Prod.fst,
          ∃ dp ∈ pre ++ l, dp.source = s) ∧
      (((l.foldl (fun acc dp => bump acc dp.source) acc).map Prod.fst).Pairwise
        (fun a b => firstIndexOf (pre ++ l) a < firstIndexOf (pre ++ l) b)) := by
  induction l with
  | nil =>
    intro pre acc h1 h2 h3
    constructor
    · simpa using h1
    · simpa using h3
  | cons dp l' ih =>
    intro pre acc h1 h2 h3
    rw [List.foldl_cons]
    have key := bump_keys acc dp.source
    have h1' : ∀ s ∈ (bump acc dp.source).map Prod.fst,
        ∃ d ∈ pre ++ [dp], d.source = s := by
      intro s hs
      rw [key] at hs
      by_cases hmem : dp.source ∈ acc.map Prod.fst
      · rw [if_pos hmem] at hs
        obtain ⟨d, hd, hds⟩ := h1 s hs
        exact ⟨d, List.mem_append_left _ hd, hds⟩
      · rw [if_neg hmem] at hs
        rcases List.mem_append.mp hs with hs' | hs'
        · obtain ⟨d, hd, hds⟩ := h1 s hs'
          exact ⟨d, List.mem_append_left _ hd, hds⟩
        · rw [List.mem_singleton] at hs'
          exact ⟨dp, List.mem_append_right _ (List.mem_singleton_self dp), hs'.symm⟩
    have h2' : ∀ d ∈ pre ++ [dp], d.source ∈ (bump acc dp.source).map Prod.fst := by
      intro d hd
      have hsup : ∀ x ∈ acc.map Prod.fst, x ∈ (bump acc dp.source).map Prod.fst := by
        intro x hx
        rw [key]
        split_ifs with hmem
        · exact hx
        · exact List.mem_append_left _ hx
      rcases List.mem_append.mp hd with hd' | hd'
      · exact hsup _ (h2 d hd')
      · rw [List.mem_singleton] at hd'
        subst hd'
        rw [key]
        split_ifs with hmem
        · exact hmem
        · exact List.mem_append_right _ (List.mem_singleton_self _)
    have h3' : ((bump acc dp.source).map Prod.fst).Pairwise
        (fun a b => firstIndexOf (pre ++ [dp]) a < firstIndexOf (pre ++ [dp]) b) := by
      have htrans : (acc.map Prod.fst).Pairwise
          (fun a b => firstIndexOf (pre ++ [dp]) a < firstIndexOf (pre ++ [dp]) b) := by
        refine List.Pairwise.imp_of_mem ?_ h3
        intro a b ha hb hab
        rw [firstIndexOf_append_of_mem (h1 a ha), firstIndexOf_append_of_mem (h1 b hb)]
        exact hab
      rw [key]
      split_ifs with hmem
      · exact htrans
      · rw [List.pairwise_append]
        refine ⟨htrans, List.pairwise_singleton _ _, ?_⟩
        intro a ha b hb
        rw [List.mem_singleton] at hb
        subst hb
        have hnotin : ∀ d ∈ pre, d.source ≠ dp.source := fun d hd he =>
          hmem (he ▸ h2 d hd)
        have hb2 : firstIndexOf (pre ++ [dp]) dp.source = pre.length := by
          rw [firstIndexOf_append_not_mem hnotin]
          simp [firstIndexOf, List.findIdx_cons]
        have ha2 : firstIndexOf (pre ++ [dp]) a < pre.length := by
          rw [firstIndexOf_append_of_mem (h1 a ha)]
          exact firstIndexOf_lt_length (h1 a ha)
        rw [hb2]
        exact ha2
    have hres := ih (pre ++ [dp]) (bump acc dp.source) h1' h2' h3'
    rw [List.append_assoc, List.singleton_append] at hres
    exact hres

/-- The keys of the _get_top_sources dict are listed in first-encounter
order of their sources. -/
theorem source_counts_keys_ordered (dps : List DataPoint) :
    ((source_counts dps).map Prod.fst).Pairwise
      (fun a b => firstIndexOf dps a < firstIndexOf dps b) := by
  have h := (source_counts_keys_ordered_aux dps [] [] (by simp) (by simp) (by simp)).2
  simpa using h

/-! ### Stable descending sort lemmas -/

/-- Membership through insertDesc. -/
theorem insertDesc_mem {x z : String × Nat} {l : List (String × Nat)} :
    z ∈ insertDesc x l ↔ z = x ∨ z ∈ l := by
  induction l with
  | nil => simp [insertDesc]
  | cons y ys ih =>
    unfold insertDesc
    split_ifs with h
    · rw [List.mem_cons, ih, List.mem_cons]
      tauto
    · simp [List.mem_cons]

/-- Membership through sortCountsDesc. -/
theorem sortCountsDesc_mem {z : String × Nat} {l : List (String × Nat)} :
    z ∈ sortCountsDesc l ↔ z ∈ l := by
  induction l with
  | nil => simp [sortCountsDesc]
  | cons x xs ih => simp [sortCountsDesc, insertDesc_mem, ih]

/-- Inserting an element that precedes (in the stability relation Q) every
element of a list sorted by count descending with Q-tie-break keeps the
list sorted the same way. -/
theorem insertDesc_pairwise {Q : String × Nat → String × Nat → Prop}
    {x : String × Nat} {l : List (String × Nat)}
    (hQ : ∀ y ∈ l, Q x y)
    (hl : l.Pairwise (fun p q => q.2 < p.2 ∨ (q.2 = p.2 ∧ Q p q))) :
    (insertDesc x l).Pairwise (fun p q => q.2 < p.2 ∨ (q.2 = p.2 ∧ Q p q)) := by
  induction l with
  | nil => simp [insertDesc]
  | cons y ys ih =>
    rw [List.pairwise_cons] at hl
    unfold insertDesc
    split_ifs with h
    · rw [List.pairwise_cons]
      constructor
      · intro z hz
        rcases insertDesc_mem.mp hz with rfl | hz'
        · exact Or.inl h
        · exact hl.1 z hz'
      · exact ih (fun z hz => hQ z (List.mem_cons_of_mem _ hz)) hl.2
    · rw [List.pairwise_cons]
      constructor
      · intro z hz
        have hz2 : z.2 ≤ y.2 := by
          rcases List.mem_cons.mp hz with rfl | hz'
          · exact le_refl _
          · rcases hl.1 z hz' with h' | h'
            · exact le_of_lt h'
            · exact le_of_eq h'.1
        have hzx : z.2 ≤ x.2 := le_trans hz2 (not_lt.mp h)
        rcases lt_or_eq_of_le hzx with h' | h'
        · exact Or.inl h'
        · exact Or.inr ⟨h', hQ z hz⟩
      · rw [List.pairwise_cons]
        exact ⟨hl.1, hl.2⟩

/-- The stable descending sort of a list whose original order satisfies Q
is sorted by count descending with Q as tie-break among equal counts. -/
theorem sortCountsDesc_pairwise {Q : String × Nat → String × Nat → Prop}
    {l : List (String × Nat)} (hl : l.Pairwise Q) :
    (sortCountsDesc l).Pairwise (fun p q => q.2 < p.2 ∨ (q.2 = p.2 ∧ Q p q)) := by
  induction l with
  | nil => simp [sortCountsDesc]
  | cons x xs ih =>
    rw [List.pairwise_cons] at hl
    unfold sortCountsDesc
    exact insertDesc_pairwise
      (fun y hy => hl.1 y (sortCountsDesc_mem.mp hy)) (ih hl.2)

/-- Claim C7: for every list of collected mentions, get_top_sources has at
most five entries and is ordered by per-source mention count descending,
ties between equal counts broken by the order in which each source was
first encountered in the mention list. -/
theorem get_top_sources_spec (dps : List DataPoint) :
    (get_top_sources dps).length ≤ 5 ∧
    (get_top_sources dps).Pairwise (fun a b =>
      sourceCount dps b < sourceCount dps a ∨
      (sourceCount dps b = sourceCount dps a ∧ firstIndexOf dps a < firstIndexOf dps b)) := by
  constructor
  · unfold get_top_sources
    rw [List.length_map, List.length_take]
    exact min_le_left _ _
  · have hpair : (source_counts dps).Pairwise
        (fun p q => firstIndexOf dps p.1 < firstIndexOf dps q.1) := by
      have h := source_counts_keys_ordered dps
      rw [List.pairwise_map] at h
      exact h
    have hsorted := sortCountsDesc_pairwise hpair
    have hnodup := source_counts_keys_nodup dps
    have hentry : ∀ p ∈ sortCountsDesc (source_counts dps),
        p.2 = sourceCount dps p.1 := by
      intro p hp
      have hp' : p ∈ source_counts dps := sortCountsDesc_mem.mp hp
      have hmk : (p.1, p.2) ∈ source_counts dps := by
        rw [Prod.mk.eta]
        exact hp'
      rw [entry_eq_sumCount hnodup hmk, sumCount_source_counts]
    have hsorted' : (sortCountsDesc (source_counts dps)).Pairwise
        (fun p q => sourceCount dps q.1 < sourceCount dps p.1 ∨
          (sourceCount dps q.1 = sourceCount dps p.1 ∧
            firstIndexOf dps p.1 < firstIndexOf dps q.1)) := by
      refine List.Pairwise.imp_of_mem ?_ hsorted
      intro p q hp hq hpq
      rw [← hentry p hp, ← hentry q hq]
      exact hpq
    have htake := List.Pairwise.sublist (List.take_sublist 5 _) hsorted'
    unfold get_top_sources
    rw [List.pairwise_map]
    exact htake
